import Mathlib

/-!
Verification of the BeyondMokshaBlogs backend core.

This file embeds, in Lean, the parts of the backend that the specification's
claims are about:

* the API-key access gate (src middleware apiKeyAuth, function requireApiKey);
* the rate-limiter configuration and rejection handler for the public-read
  tier (src middleware rateLimiter, publicReadLimiter), together with a
  fixed-window counter model of the limiting algorithm itself, which lives
  in the express-rate-limit dependency and is modelled from the spec;
* the content pipeline (src utils contentProcessor: sanitizeHtml,
  htmlToPlainText, optimizeImages, processContentForStorage), including a
  faithful single-pass model of the JavaScript regex replacements used there;
* the blog lifecycle orchestrator (create / read / permanent delete flows of
  blogController, which is not part of the shipped sources and is therefore
  modelled from the spec over explicit metadata-store and blob-store states,
  with injected storage failures).

JavaScript strings are modelled as Lean strings via their character lists.
Regex-based global replacements are modelled as single left-to-right scans,
mirroring how String.prototype.replace with a /g regex walks the original
string once and never rescans the already-produced output.
-/

namespace BMB

/-! ## JavaScript string primitives -/

/-- ASCII-lowercased character, used for the case-insensitive regex flag. -/
def lower (c : Char) : Char := c.toLower

/-- Case-sensitive prefix test on character lists. -/
def startsWithL : List Char → List Char → Bool
  | [], _ => true
  | _ :: _, [] => false
  | p :: ps, c :: cs => (c == p) && startsWithL ps cs

/-- Case-insensitive prefix test on character lists. -/
def startsWithCI : List Char → List Char → Bool
  | [], _ => true
  | _ :: _, [] => false
  | p :: ps, c :: cs => (lower c == lower p) && startsWithCI ps cs

/-- JavaScript str.replace(pat, empty) with a plain-string pattern: remove the
first occurrence of pat, leave everything else unchanged. -/
def removeFirst (pat : List Char) : List Char → List Char
  | [] => []
  | c :: cs =>
    if startsWithL pat (c :: cs) then List.drop pat.length (c :: cs)
    else c :: removeFirst pat cs

/-- String wrapper for removeFirst. -/
def jsRemoveFirst (pat s : String) : String := String.mk (removeFirst pat.data s.data)

/-! ## Access gate (src middleware apiKeyAuth, requireApiKey) -/

/-- Outcome of the requireApiKey middleware: 401 missing key, 500 server
configuration error, 403 invalid key, or pass-through to the handler. -/
inductive AuthResult where
  | missing
  | configError
  | invalid
  | granted
deriving DecidableEq

/-- The two request locations the middleware reads the credential from. -/
structure ApiRequest where
  xApiKey : Option String
  authorization : Option String
deriving DecidableEq

/-- JavaScript truthiness of a possibly-undefined string: undefined and the
empty string are falsy. -/
def jsTruthy : Option String → Bool
  | none => false
  | some s => decide (s ≠ "")

/-- Credential extraction, mirroring
req.headers of x-api-key, OR-ELSE req.headers of authorization with the first
occurrence of the text Bearer-space removed; the OR-ELSE skips falsy values. -/
def extractApiKey (req : ApiRequest) : Option String :=
  match req.xApiKey with
  | some x => if x = "" then req.authorization.map (jsRemoveFirst "Bearer ") else some x
  | none => req.authorization.map (jsRemoveFirst "Bearer ")

/-- The requireApiKey middleware: missing-key check first, then the
configured-secret check, then a plain equality comparison. -/
def requireApiKey (secret : Option String) (req : ApiRequest) : AuthResult :=
  let apiKey := extractApiKey req
  if !(jsTruthy apiKey) then AuthResult.missing
  else if !(jsTruthy secret) then AuthResult.configError
  else if apiKey = secret then AuthResult.granted
  else AuthResult.invalid

/-! ## Rate limiter (src middleware rateLimiter) -/

/-- Window of the public-read tier: 15 minutes in milliseconds. -/
def publicReadWindowMs : Nat := 15 * 60 * 1000

/-- Maximum requests per window for the public-read tier. -/
def publicReadMax : Nat := 100

/-- Body of the 429 response produced by the public-read handler. -/
structure LimitBody where
  success : Bool
  message : String
  retryAfter : String
deriving DecidableEq

/-- The constant 429 body of publicReadLimiter's handler. -/
def publicReadLimitBody : LimitBody :=
  { success := false
    message := "Too many requests from this IP, please try again after 15 minutes"
    retryAfter := "15 minutes" }

/-- The rejection handler of the public-read tier: it ignores the limiter
state entirely and always sends the same body. -/
def publicReadHandler (_now _windowStart : Nat) : LimitBody := publicReadLimitBody

/-- Per-(tier, identity) limiter state: a counter and a window start. -/
structure TierState where
  counter : Nat
  windowStart : Nat
deriving DecidableEq

/-- Modelled from the spec: the fixed-window counter algorithm of the rate
limiter (the algorithm itself lives in the express-rate-limit dependency,
outside this repository's sources). On each request, if now minus windowStart
has reached the window, reset the counter to 0 and set windowStart to now;
then increment the counter; the request is allowed iff the counter does not
exceed the tier maximum. -/
def rlStep (window maxReq now : Nat) (st : TierState) : Bool × TierState :=
  let st1 := if window ≤ now - st.windowStart then TierState.mk 0 now else st
  let st2 := TierState.mk (st1.counter + 1) st1.windowStart
  (decide (st2.counter ≤ maxReq), st2)

/-- Run the fixed-window limiter over a list of request times, returning the
allowed / rejected flag of each request in order. -/
def rlRun (window maxReq : Nat) : TierState → List Nat → List Bool
  | _, [] => []
  | st, t :: ts =>
    let r := rlStep window maxReq t st
    r.1 :: rlRun window maxReq r.2 ts

/-- The retry-after value the spec prescribes for a rejection: the remaining
time in the current fixed window. -/
def specRetryAfter (window now windowStart : Nat) : Nat := window - (now - windowStart)

/-- One public-read request against the limiter: either pass (none) or the
handler's 429 body. -/
def publicReadRequest (st : TierState) (now : Nat) : Option LimitBody × TierState :=
  let r := rlStep publicReadWindowMs publicReadMax now st
  (if r.1 then none else some (publicReadHandler now r.2.windowStart), r.2)

/-! ## Content pipeline (src utils contentProcessor)

The development sanitizer is three chained global regex replacements:
scripts, double-quoted inline handlers, single-quoted inline handlers.
Each is a single left-to-right pass over its input, exactly like the
JavaScript replace calls.  The fuel argument of each scanner is only a
termination device: every recursive call consumes at least one input
character, so an initial fuel equal to the input length is never exhausted.
-/

/-- Word character of the JavaScript regex class backslash-w. -/
def isWordChar (c : Char) : Bool :=
  (decide ('a' ≤ c) && decide (c ≤ 'z')) ||
  (decide ('A' ≤ c) && decide (c ≤ 'Z')) ||
  (decide ('0' ≤ c) && decide (c ≤ '9')) || c == '_'

/-- Scan forward, case-insensitively, for the first occurrence of pat; return
the remainder after it, or none if it never occurs. -/
def dropAfterCI (pat : List Char) : List Char → Option (List Char)
  | [] => none
  | c :: cs =>
    if startsWithCI pat (c :: cs) then some (List.drop pat.length (c :: cs))
    else dropAfterCI pat cs

/-- Scan forward for the first occurrence of the character q; return the
remainder after it, or none. -/
def dropAfterChar (q : Char) : List Char → Option (List Char)
  | [] => none
  | c :: cs => if c == q then some cs else dropAfterChar q cs

/-- Opening token of a script element. -/
def scriptOpen : List Char := "<script".data

/-- Closing token of a script element. -/
def scriptClose : List Char := "</script>".data

/-- Match of the script-stripping regex at the current position: the literal
open tag (case-insensitive) followed by a word boundary, then everything up to
and including the first closing tag.  Returns the remainder after the match.
The regex's inner loop admits any characters, including stray angle brackets,
between the two tags, and its lookahead stops exactly at the first
case-insensitive closing tag, so the match is this deterministic scan. -/
def matchScript (s : List Char) : Option (List Char) :=
  if startsWithCI scriptOpen s then
    match List.drop scriptOpen.length s with
    | [] => none
    | c :: cs => if isWordChar c then none else dropAfterCI scriptClose (c :: cs)
  else none

/-- Single pass of the script-stripping replacement (replacement text is
empty, and the scan resumes after each match, never rescanning output). -/
def removeScriptsF : Nat → List Char → List Char
  | 0, s => s
  | _ + 1, [] => []
  | fuel + 1, c :: cs =>
    match matchScript (c :: cs) with
    | some rest => removeScriptsF fuel rest
    | none => c :: removeScriptsF fuel cs

/-- Script-stripping stage of sanitizeHtml. -/
def removeScripts (s : List Char) : List Char := removeScriptsF s.length s

/-- Match of an inline-handler regex at the current position: the literal
letters o n, at least one word character, an equals sign, the quote q, any
non-q characters, and the closing q.  The regex's greedy word-run cannot
backtrack usefully (the character after the run would have to equal the
non-word equals sign), so the match is this deterministic scan. -/
def matchHandler (q : Char) : List Char → Option (List Char)
  | 'o' :: 'n' :: cs =>
    if (cs.takeWhile isWordChar).isEmpty then none
    else
      match cs.dropWhile isWordChar with
      | '=' :: c :: rest => if c == q then dropAfterChar q rest else none
      | _ => none
  | _ => none

/-- Single pass of an inline-handler replacement. -/
def removeHandlersF (q : Char) : Nat → List Char → List Char
  | 0, s => s
  | _ + 1, [] => []
  | fuel + 1, c :: cs =>
    match matchHandler q (c :: cs) with
    | some rest => removeHandlersF q fuel rest
    | none => c :: removeHandlersF q fuel cs

/-- Inline-handler stripping stage of sanitizeHtml for quote character q. -/
def removeHandlers (q : Char) (s : List Char) : List Char := removeHandlersF q s.length s

/-- sanitizeHtml from contentProcessor (the active development option):
strip script elements, then double-quoted inline handlers, then single-quoted
inline handlers, each in one global-replace pass. -/
def sanitizeL (s : List Char) : List Char :=
  removeHandlers '\'' (removeHandlers '"' (removeScripts s))

/-- String-level sanitizeHtml. -/
def sanitizeHtml (s : String) : String := String.mk (sanitizeL s.data)

/-- True when the script regex has no match anywhere in the string. -/
def noScriptMatch : List Char → Bool
  | [] => true
  | c :: cs => (matchScript (c :: cs)).isNone && noScriptMatch cs

/-- True when the inline-handler regex for quote q has no match anywhere. -/
def noHandlerMatch (q : Char) : List Char → Bool
  | [] => true
  | c :: cs => (matchHandler q (c :: cs)).isNone && noHandlerMatch q cs

/-- True when none of the three sanitizer regexes has a match anywhere. -/
def sanitizedClean (s : List Char) : Bool :=
  noScriptMatch s && noHandlerMatch '"' s && noHandlerMatch '\'' s

/-! ### Plain text extraction and word counting -/

/-- Whitespace characters of the JavaScript regex class backslash-s
(ASCII range). -/
def jsIsSpace (c : Char) : Bool :=
  c == ' ' || c == '\t' || c == '\n' || c == '\r' || c == '\x0b' || c == '\x0c'

/-- Single pass replacing every tag-shaped run, an angle-open then non-close
characters then angle-close, with one space. -/
def stripTagsF : Nat → List Char → List Char
  | 0, s => s
  | _ + 1, [] => []
  | fuel + 1, c :: cs =>
    if c == '<' then
      match dropAfterChar '>' cs with
      | some rest => ' ' :: stripTagsF fuel rest
      | none => c :: stripTagsF fuel cs
    else c :: stripTagsF fuel cs

/-- Tag-stripping stage of htmlToPlainText. -/
def stripTags (s : List Char) : List Char := stripTagsF s.length s

/-- Single pass collapsing each whitespace run to one space. -/
def collapseWsF : Nat → List Char → List Char
  | 0, s => s
  | _ + 1, [] => []
  | fuel + 1, c :: cs =>
    if jsIsSpace c then ' ' :: collapseWsF fuel (cs.dropWhile jsIsSpace)
    else c :: collapseWsF fuel cs

/-- Whitespace-normalisation stage of htmlToPlainText. -/
def collapseWs (s : List Char) : List Char := collapseWsF s.length s

/-- The non-breaking-space entity replaced by htmlToPlainText. -/
def nbspEntity : List Char := "&nbsp;".data

/-- Single pass replacing each non-breaking-space entity with a space. -/
def replaceNbspF : Nat → List Char → List Char
  | 0, s => s
  | _ + 1, [] => []
  | fuel + 1, c :: cs =>
    if startsWithL nbspEntity (c :: cs) then
      ' ' :: replaceNbspF fuel (List.drop nbspEntity.length (c :: cs))
    else c :: replaceNbspF fuel cs

/-- Entity-replacement stage of htmlToPlainText. -/
def replaceNbsp (s : List Char) : List Char := replaceNbspF s.length s

/-- JavaScript String.prototype.trim, restricted to the modelled whitespace
set: drop leading and trailing whitespace. -/
def jsTrim (s : List Char) : List Char :=
  ((s.dropWhile jsIsSpace).reverse.dropWhile jsIsSpace).reverse

/-- htmlToPlainText from contentProcessor: strip tags to spaces, collapse
whitespace, replace non-breaking-space entities, trim. -/
def htmlToPlainTextL (s : List Char) : List Char :=
  jsTrim (replaceNbsp (collapseWs (stripTags s)))

/-- Opening token of an image tag. -/
def imgOpen : List Char := "<img".data

/-- Attributes appended by optimizeImages. -/
def lazyAttrs : List Char := " loading=\"lazy\" decoding=\"async\"".data

/-- Match of the image regex at the current position: the literal open token
(case-insensitive), the attribute run of non-close characters, and the
closing angle bracket.  Returns the captured attributes and the remainder. -/
def matchImg (s : List Char) : Option (List Char × List Char) :=
  if startsWithCI imgOpen s then
    let r := List.drop imgOpen.length s
    match dropAfterChar '>' r with
    | some rest => some (r.takeWhile (fun c => !(c == '>')), rest)
    | none => none
  else none

/-- Single pass of the optimizeImages replacement: each matched image tag is
rewritten with the lazy-loading attributes inserted before the close. -/
def optimizeImagesF : Nat → List Char → List Char
  | 0, s => s
  | _ + 1, [] => []
  | fuel + 1, c :: cs =>
    match matchImg (c :: cs) with
    | some (attrs, rest) => imgOpen ++ attrs ++ lazyAttrs ++ '>' :: optimizeImagesF fuel rest
    | none => c :: optimizeImagesF fuel cs

/-- optimizeImages from contentProcessor. -/
def optimizeImages (s : List Char) : List Char := optimizeImagesF s.length s

/-- The processed html of processContentForStorage: markdown conversion is the
identity in the shipped code, then sanitize, then image optimisation. -/
def processedHtml (content : String) : List Char :=
  optimizeImages (sanitizeL content.data)

/-- Count of runs of characters satisfying p: a position is counted when its
character satisfies p and the previous character (tracked in prev as
some-of-p-of-previous, none at the start) does not. -/
def runStarts (p : Char → Bool) : Option Bool → List Char → Nat
  | _, [] => 0
  | prev, c :: cs =>
    (if p c = true ∧ prev ≠ some true then 1 else 0) + runStarts p (some (p c)) cs

/-- True when the list is empty or starts with a non-whitespace character. -/
def headNotWs : List Char → Bool
  | [] => true
  | c :: _ => !(jsIsSpace c)

/-- True when the list is empty or ends with a non-whitespace character. -/
def lastNotWs : List Char → Bool
  | [] => true
  | [c] => !(jsIsSpace c)
  | _ :: c :: cs => lastNotWs (c :: cs)

/-- Length of the JavaScript split of s on a whitespace regex: one more than
the number of maximal whitespace runs (the empty string splits to one empty
field, a string of k separators splits into k plus one fields, counting the
empty leading and trailing fields JavaScript keeps). -/
def splitWsLen (s : List Char) : Nat := runStarts jsIsSpace none s + 1

/-- wordCount of processContentForStorage: the split length of the plain text
of the processed html. -/
def wordCountOf (content : String) : Nat :=
  splitWsLen (htmlToPlainTextL (processedHtml content))

/-- readTime of processContentForStorage: the ceiling of wordCount over 200,
as Math.ceil computes it on the exact rational. -/
def readTimeOf (content : String) : Nat := (wordCountOf content + 199) / 200

/-- Definition following the claim's words, for comparison with the code: the
number of words in the plain text of the input, i.e. its number of maximal
non-whitespace runs. -/
def specWordCount (content : String) : Nat :=
  runStarts (fun c => !(jsIsSpace c)) none (htmlToPlainTextL content.data)

/-! ## Blog lifecycle orchestrator

The orchestrator (blogController) is not part of the shipped sources; the
flows below are modelled from the spec's per-operation state machines, over
explicit metadata-store and blob-store states, with injected storage
failures.  Only the fields and operations the claims touch are modelled.
-/

/-- Errors surfaced by the modelled flows. -/
inductive OpError where
  | storage
  | notFound
deriving DecidableEq

/-- Metadata row of a blog, restricted to the fields the claims touch. -/
structure BlogRow where
  id : Nat
  contentKey : Option String
  coverKey : Option String
  deletedAt : Option Nat
  views : Nat
deriving DecidableEq

/-- Metadata store: the rows plus the next system-assigned id. -/
structure MetaStore where
  rows : List BlogRow
  nextId : Nat
deriving DecidableEq

/-- Blob store: an association of keys to byte payloads. -/
abbrev BlobStore := List (String × String)

/-- Combined two-store state. -/
structure SysState where
  meta : MetaStore
  blobs : BlobStore
deriving DecidableEq

/-- Injected storage failures, one flag per fallible store call of the
modelled flows. -/
structure Oracle where
  putContentFails : Bool
  putCoverFails : Bool
  deleteBlobsFails : Bool
  getContentFails : Bool
  incrementFails : Bool
deriving DecidableEq

/-- Modelled from the spec: Metadata row lookup by id, soft-deleted included. -/
def findRow (m : MetaStore) (id : Nat) : Option BlogRow :=
  m.rows.find? (fun r => r.id == id)

/-- Modelled from the spec: Metadata.get, which excludes soft-deleted rows. -/
def metaGet (m : MetaStore) (id : Nat) : Option BlogRow :=
  match findRow m id with
  | some r => if r.deletedAt == none then some r else none
  | none => none

/-- Modelled from the spec: Metadata.hardDelete removes the row physically. -/
def metaHardDelete (m : MetaStore) (id : Nat) : MetaStore :=
  MetaStore.mk (m.rows.filter (fun r => !(r.id == id))) m.nextId

/-- Modelled from the spec: Metadata.insert of the provisional row of Create,
with null keys, returning the new row and the updated store. -/
def metaInsert (m : MetaStore) : BlogRow × MetaStore :=
  let r := BlogRow.mk m.nextId none none none 0
  (r, MetaStore.mk (m.rows ++ [r]) (m.nextId + 1))

/-- Modelled from the spec: the key-commit Metadata.update of Create. -/
def metaSetKeys (m : MetaStore) (id : Nat) (ck cov : Option String) : MetaStore :=
  MetaStore.mk
    (m.rows.map (fun r =>
      if r.id == id then { r with contentKey := ck, coverKey := cov } else r))
    m.nextId

/-- Modelled from the spec: the atomic Metadata.incrementView. -/
def metaIncrementView (m : MetaStore) (id : Nat) : MetaStore :=
  MetaStore.mk
    (m.rows.map (fun r => if r.id == id then { r with views := r.views + 1 } else r))
    m.nextId

/-- Modelled from the spec: Blob.put overwrites in place. -/
def blobPut (b : BlobStore) (key bytes : String) : BlobStore :=
  (key, bytes) :: b.filter (fun kv => !(kv.1 == key))

/-- Modelled from the spec: Blob.get. -/
def blobGet (b : BlobStore) (key : String) : Option String :=
  (b.find? (fun kv => kv.1 == key)).map Prod.snd

/-- Modelled from the spec: Blob.deleteByPrefix removes every key under the
given key folder. -/
def blobDeleteUnder (b : BlobStore) (p : String) : BlobStore :=
  b.filter (fun kv => !(startsWithL p.data kv.1.data))

/-- Key folder of a blog, the common part of its blob keys. -/
def blogFolder (id : Nat) : String := "blogs/" ++ toString id ++ "/"

/-- Deterministic content key of a blog. -/
def contentKeyOf (id : Nat) : String := blogFolder id ++ "content.html"

/-- Deterministic cover key of a blog for a declared extension. -/
def coverKeyOf (id : Nat) (ext : String) : String := blogFolder id ++ "cover." ++ ext

/-- Modelled from the spec: the Create flow.  Insert the provisional row,
upload the sanitized content blob, upload the cover blob when present, commit
the keys.  If a blob upload fails after the row exists, compensate with a
metadata hard delete of the new id and re-raise the storage error. -/
def createBlog (o : Oracle) (st : SysState) (content : String)
    (cover : Option (String × String)) : Except OpError BlogRow × SysState :=
  let ins := metaInsert st.meta
  let id := ins.1.id
  let m1 := ins.2
  if o.putContentFails then
    (Except.error OpError.storage, SysState.mk (metaHardDelete m1 id) st.blobs)
  else
    let b1 := blobPut st.blobs (contentKeyOf id) (sanitizeHtml content)
    match cover with
    | some co =>
      if o.putCoverFails then
        (Except.error OpError.storage, SysState.mk (metaHardDelete m1 id) b1)
      else
        let b2 := blobPut b1 (coverKeyOf id co.1) co.2
        let m2 := metaSetKeys m1 id (some (contentKeyOf id)) (some (coverKeyOf id co.1))
        (Except.ok (BlogRow.mk id (some (contentKeyOf id)) (some (coverKeyOf id co.1)) none 0),
         SysState.mk m2 b2)
    | none =>
      let m2 := metaSetKeys m1 id (some (contentKeyOf id)) none
      (Except.ok (BlogRow.mk id (some (contentKeyOf id)) none none 0), SysState.mk m2 b1)

/-- Modelled from the spec: the Permanent Delete flow.  Blob deletion under
the blog's key folder runs first; if it fails the flow aborts with the
storage error before touching the metadata row; otherwise the row is
hard-deleted. -/
def permanentDelete (o : Oracle) (st : SysState) (id : Nat) :
    Except OpError Unit × SysState :=
  if o.deleteBlobsFails then
    (Except.error OpError.storage, st)
  else
    let b1 := blobDeleteUnder st.blobs (blogFolder id)
    match findRow st.meta id with
    | none => (Except.error OpError.notFound, SysState.mk st.meta b1)
    | some _ => (Except.ok (), SysState.mk (metaHardDelete st.meta id) b1)

/-- Modelled from the spec: the Read-single flow.  Soft-deleted and missing
rows give NotFound; the view-count increment is fired without blocking the
response, its failure is discarded, and the response reports the incremented
count. -/
def readBlog (o : Oracle) (st : SysState) (id : Nat) :
    Except OpError BlogRow × SysState :=
  match metaGet st.meta id with
  | none => (Except.error OpError.notFound, st)
  | some r =>
    let m1 := if o.incrementFails then st.meta else metaIncrementView st.meta id
    (Except.ok { r with views := r.views + 1 }, SysState.mk m1 st.blobs)

/-- Modelled from the spec: the Read-with-content flow.  As Read-single, plus
the content blob fetch, whose failure is a storage error surfaced to the
caller; the increment failure alone is discarded. -/
def readBlogContent (o : Oracle) (st : SysState) (id : Nat) :
    Except OpError (BlogRow × String) × SysState :=
  match metaGet st.meta id with
  | none => (Except.error OpError.notFound, st)
  | some r =>
    match r.contentKey with
    | none => (Except.error OpError.storage, st)
    | some ck =>
      if o.getContentFails then (Except.error OpError.storage, st)
      else
        match blobGet st.blobs ck with
        | none => (Except.error OpError.storage, st)
        | some bytes =>
          let m1 := if o.incrementFails then st.meta else metaIncrementView st.meta id
          (Except.ok ({ r with views := r.views + 1 }, bytes), SysState.mk m1 st.blobs)

/-! ## Theorems: access gate -/

/-- A list is a prefix of itself followed by anything. -/
theorem startsWithL_self_append (p r : List Char) : startsWithL p (p ++ r) = true := by
  induction p with
  | nil => rfl
  | cons a ps ih => simp [startsWithL, ih]

/-- Removing the first occurrence of a non-empty pattern from the pattern
followed by a remainder yields the remainder. -/
theorem removeFirst_self_append (p r : List Char) (hp : p ≠ []) :
    removeFirst p (p ++ r) = r := by
  cases p with
  | nil => exact absurd rfl hp
  | cons a ps =>
    have h1 : startsWithL (a :: ps) ((a :: ps) ++ r) = true := startsWithL_self_append _ _
    rw [List.cons_append] at h1 ⊢
    rw [removeFirst, h1, if_pos rfl]
    exact List.drop_left (a :: ps) r

/-- Extraction from the bearer-style location strips the scheme word. -/
theorem extract_bearer (c : String) :
    extractApiKey (ApiRequest.mk none (some ("Bearer " ++ c))) = some c := by
  unfold extractApiKey jsRemoveFirst
  congr 1

/-- The gate behaves identically whether the credential arrives in the
dedicated header or in the bearer-style alternative. -/
theorem locations_equiv (secret : Option String) (c : String) :
    requireApiKey secret (ApiRequest.mk (some c) none)
      = requireApiKey secret (ApiRequest.mk none (some ("Bearer " ++ c))) := by
  have h2 := extract_bearer c
  unfold requireApiKey
  rw [h2]
  unfold extractApiKey
  by_cases hc : c = ""
  · subst hc
    simp [jsTruthy]
  · simp [hc, jsTruthy]

/-- With a configured non-empty secret the gate reduces to a three-way split
on the extracted credential. -/
theorem requireApiKey_some (k : String) (req : ApiRequest) (hk : k ≠ "") :
    requireApiKey (some k) req =
      match extractApiKey req with
      | none => AuthResult.missing
      | some c =>
        if c = "" then AuthResult.missing
        else if c = k then AuthResult.granted
        else AuthResult.invalid := by
  unfold requireApiKey
  cases hE : extractApiKey req with
  | none => simp [jsTruthy]
  | some c =>
    by_cases hc : c = ""
    · subst hc
      simp [jsTruthy]
    · by_cases hck : c = k
      · subst hck
        simp [jsTruthy, hc, hk]
      · simp [jsTruthy, hc, hk, hck]

/-- C7: with a configured non-empty secret, the access gate returns the
missing-credential error exactly when neither of the two request locations
supplies a non-empty credential, the invalid-credential error exactly when
the extracted credential is non-empty and differs from the secret, and grants
access exactly when the extracted credential equals the secret; it never
reports a configuration error, and the two supply locations are
interchangeable. -/
theorem requireApiKey_classification (k : String) (req : ApiRequest) (hk : k ≠ "") :
    (requireApiKey (some k) req = AuthResult.missing ↔
       (extractApiKey req = none ∨ extractApiKey req = some ""))
    ∧ (requireApiKey (some k) req = AuthResult.invalid ↔
       ∃ c, extractApiKey req = some c ∧ c ≠ "" ∧ c ≠ k)
    ∧ (requireApiKey (some k) req = AuthResult.granted ↔ extractApiKey req = some k)
    ∧ requireApiKey (some k) req ≠ AuthResult.configError
    ∧ ∀ c : String, requireApiKey (some k) (ApiRequest.mk (some c) none)
        = requireApiKey (some k) (ApiRequest.mk none (some ("Bearer " ++ c))) := by
  have h := requireApiKey_some k req hk
  rw [h]
  cases hE : extractApiKey req with
  | none =>
    exact ⟨by simp, by simp, by simp, by simp, fun c => locations_equiv (some k) c⟩
  | some c =>
    by_cases hc : c = ""
    · subst hc
      refine ⟨by simp, by simp, ?_, by simp, fun x => locations_equiv (some k) x⟩
      simp [Ne.symm hk]
    · by_cases hck : c = k
      · refine ⟨?_, ?_, ?_, ?_, fun x => locations_equiv (some k) x⟩ <;> simp [hck, hk]
      · refine ⟨?_, ?_, ?_, ?_, fun x => locations_equiv (some k) x⟩ <;> simp [hc, hck]

/-- C7 witness: the gate grants a request carrying the configured secret in
the dedicated header. -/
theorem requireApiKey_classification_witness :
    requireApiKey (some "adminkey") (ApiRequest.mk (some "adminkey") none)
      = AuthResult.granted :=
  (requireApiKey_classification "adminkey" (ApiRequest.mk (some "adminkey") none)
     (by decide)).2.2.1.mpr (by decide)

/-- C10 counterexample: with the admin secret unset, a request that supplies
no credential at all is rejected as missing (status 401), not with the
server-configuration error the claim requires for every request. -/
theorem authGate_unset_secret_counterexample :
    requireApiKey none (ApiRequest.mk none none) = AuthResult.missing
    ∧ AuthResult.missing ≠ AuthResult.configError := by decide

/-- C10 amended: with no admin secret configured (unset or empty), the gate
fails closed: no request is ever granted; a request supplying a non-empty
credential is rejected with the server-configuration error, and a request
supplying none is rejected as missing. -/
theorem unset_secret_fails_closed (secret : Option String) (req : ApiRequest)
    (h : secret = none ∨ secret = some "") :
    requireApiKey secret req ≠ AuthResult.granted
    ∧ (jsTruthy (extractApiKey req) = true →
        requireApiKey secret req = AuthResult.configError)
    ∧ (jsTruthy (extractApiKey req) = false →
        requireApiKey secret req = AuthResult.missing) := by
  have hs : jsTruthy secret = false := by
    rcases h with h | h <;> subst h <;> rfl
  unfold requireApiKey
  cases ht : jsTruthy (extractApiKey req) <;> simp [hs, ht]

/-- C10 amended witness: with the secret unset, a request supplying a
credential gets the configuration error. -/
theorem unset_secret_fails_closed_witness :
    requireApiKey none (ApiRequest.mk (some "anything") none)
      = AuthResult.configError :=
  (unset_secret_fails_closed none (ApiRequest.mk (some "anything") none)
     (Or.inl rfl)).2.1 (by decide)

/-! ## Theorems: rate limiter -/

/-- While every request of a run falls inside the window that started at t0,
no reset fires and the k-th request is allowed exactly when the counter,
started at c, stays within the maximum. -/
theorem rlRun_in_window (window maxReq t0 : Nat) :
    ∀ (ts : List Nat) (c : Nat), (∀ t ∈ ts, t - t0 < window) →
      rlRun window maxReq (TierState.mk c t0) ts
        = (List.range ts.length).map (fun k => decide (c + k + 1 ≤ maxReq)) := by
  intro ts
  induction ts with
  | nil => intro c _; rfl
  | cons t ts ih =>
    intro c h
    have hnr : ¬ (window ≤ t - t0) :=
      Nat.not_le.mpr (h t (List.mem_cons_self t ts))
    have hstep : rlStep window maxReq t (TierState.mk c t0)
        = (decide (c + 1 ≤ maxReq), TierState.mk (c + 1) t0) := by
      unfold rlStep
      rw [if_neg hnr]
    rw [show rlRun window maxReq (TierState.mk c t0) (t :: ts)
          = (rlStep window maxReq t (TierState.mk c t0)).1
            :: rlRun window maxReq (rlStep window maxReq t (TierState.mk c t0)).2 ts from rfl]
    rw [hstep]
    rw [ih (c + 1) (fun x hx => h x (List.mem_cons_of_mem _ hx))]
    rw [List.length_cons, List.range_succ_eq_map, List.map_cons, List.map_map]
    congr 1
    apply List.map_congr_left
    intro k _
    simp only [Function.comp_apply]
    rw [decide_eq_decide]
    omega

/-- C5: with the public-read tier's fixed 15-minute window and maximum of
100, every run of requests from one identity that stays inside a single
window admits request k+1 exactly when k+1 is at most 100 — so the 100th
request succeeds and the 101st is rejected — and on any request that arrives
with the window elapsed, the counter is reset and windowStart set to now
before the increment, leaving the counter at 1. -/
theorem publicRead_fixed_window (t0 : Nat) (ts : List Nat)
    (hin : ∀ t ∈ ts, t - t0 < publicReadWindowMs) (k : Nat) (hk : k < ts.length) :
    (rlRun publicReadWindowMs publicReadMax (TierState.mk 0 t0) ts).getD k false
      = decide (k + 1 ≤ publicReadMax)
    ∧ ∀ (st : TierState) (now : Nat), publicReadWindowMs ≤ now - st.windowStart →
        (rlStep publicReadWindowMs publicReadMax now st).2 = TierState.mk 1 now := by
  constructor
  · rw [rlRun_in_window publicReadWindowMs publicReadMax t0 ts 0 hin]
    rw [List.getD_eq_getElem?_getD, List.getElem?_map, List.getElem?_range hk]
    simp [Nat.zero_add]
  · intro st now hnow
    unfold rlStep
    rw [if_pos hnow]

/-- C5 witness: starting fresh at time 0, with 101 requests inside one
window, the 100th request (index 99) is allowed and the 101st (index 100) is
rejected. -/
theorem publicRead_fixed_window_witness :
    (rlRun publicReadWindowMs publicReadMax (TierState.mk 0 0)
        (List.replicate 101 0)).getD 99 false = true
    ∧ (rlRun publicReadWindowMs publicReadMax (TierState.mk 0 0)
        (List.replicate 101 0)).getD 100 false = false := by
  have hin : ∀ t ∈ List.replicate 101 0, t - 0 < publicReadWindowMs := by
    intro t ht
    rw [List.eq_of_mem_replicate ht]
    decide
  have h99 : (99 : Nat) < (List.replicate 101 0).length := by
    rw [List.length_replicate]; omega
  have h100 : (100 : Nat) < (List.replicate 101 0).length := by
    rw [List.length_replicate]; omega
  constructor
  · rw [(publicRead_fixed_window 0 (List.replicate 101 0) hin 99 h99).1]
    decide
  · rw [(publicRead_fixed_window 0 (List.replicate 101 0) hin 100 h100).1]
    decide

/-- C6 counterexample: a request rejected 5 minutes into the window receives
the handler's constant body, the same body every rejection receives; the spec
formula for that rejection gives 600000 ms (10 minutes) of window remaining,
which differs from the full-window 15 minutes the body carries. -/
theorem retryAfter_constant_counterexample :
    (publicReadRequest (TierState.mk 100 0) 300000).1 = some publicReadLimitBody
    ∧ (publicReadRequest (TierState.mk 100 600000) 600000).1
        = (publicReadRequest (TierState.mk 100 0) 300000).1
    ∧ specRetryAfter publicReadWindowMs 300000 0 = 600000
    ∧ publicReadLimitBody.retryAfter = "15 minutes"
    ∧ (600000 : Nat) ≠ 15 * 60 * 1000 := by decide

/-- C6 amended: whenever the public-read tier rejects a request, the response
body carries the constant retryAfter text naming the full 15-minute window,
independent of the tier state and of how much of the window has elapsed. -/
theorem retryAfter_full_window (st : TierState) (now : Nat) (b : LimitBody)
    (h : (publicReadRequest st now).1 = some b) :
    b.retryAfter = "15 minutes" ∧ publicReadWindowMs = 15 * 60 * 1000 := by
  refine ⟨?_, rfl⟩
  by_cases hr : (rlStep publicReadWindowMs publicReadMax now st).1 = true
  · have hn : (publicReadRequest st now).1 = none := by
      unfold publicReadRequest
      simp [hr]
    rw [hn] at h
    exact absurd h (by simp)
  · have hs : (publicReadRequest st now).1 = some publicReadLimitBody := by
      unfold publicReadRequest publicReadHandler
      simp [hr]
    rw [hs] at h
    injection h with h2
    rw [← h2]
    rfl

/-- C6 amended witness: a concrete rejection carries the constant body. -/
theorem retryAfter_full_window_witness :
    (publicReadRequest (TierState.mk 100 0) 300000).1 = some publicReadLimitBody
    ∧ publicReadLimitBody.retryAfter = "15 minutes" := by
  have h : (publicReadRequest (TierState.mk 100 0) 300000).1
      = some publicReadLimitBody := by decide
  exact ⟨h, (retryAfter_full_window (TierState.mk 100 0) 300000 publicReadLimitBody h).1⟩

/-! ## Theorems: sanitizer -/

/-- Where the script regex never matches, the script-stripping pass is the
identity, for any fuel. -/
theorem removeScriptsF_id (fuel : Nat) :
    ∀ s : List Char, noScriptMatch s = true → removeScriptsF fuel s = s := by
  induction fuel with
  | zero => intro s _; rfl
  | succ fuel ih =>
    intro s hs
    cases s with
    | nil => rfl
    | cons c cs =>
      rw [noScriptMatch, Bool.and_eq_true, Option.isNone_iff_eq_none] at hs
      show (match matchScript (c :: cs) with
            | some rest => removeScriptsF fuel rest
            | none => c :: removeScriptsF fuel cs) = c :: cs
      rw [hs.1, ih cs hs.2]

/-- Where the inline-handler regex never matches, the handler-stripping pass
is the identity, for any fuel. -/
theorem removeHandlersF_id (q : Char) (fuel : Nat) :
    ∀ s : List Char, noHandlerMatch q s = true → removeHandlersF q fuel s = s := by
  induction fuel with
  | zero => intro s _; rfl
  | succ fuel ih =>
    intro s hs
    cases s with
    | nil => rfl
    | cons c cs =>
      rw [noHandlerMatch, Bool.and_eq_true, Option.isNone_iff_eq_none] at hs
      show (match matchHandler q (c :: cs) with
            | some rest => removeHandlersF q fuel rest
            | none => c :: removeHandlersF q fuel cs) = c :: cs
      rw [hs.1, ih cs hs.2]

/-- A string on which none of the three sanitizer regexes matches is a fixed
point of the sanitizer. -/
theorem sanitizeL_id (y : List Char) (h1 : noScriptMatch y = true)
    (h2 : noHandlerMatch '"' y = true) (h3 : noHandlerMatch '\'' y = true) :
    sanitizeL y = y := by
  unfold sanitizeL removeScripts removeHandlers
  rw [removeScriptsF_id y.length y h1, removeHandlersF_id '"' y.length y h2,
    removeHandlersF_id '\'' y.length y h3]

/-- C3 counterexample: sanitize is not idempotent.  Removing the two empty
script elements of this input splices the surrounding text into a new script
element, which only a second application removes, so applying sanitize twice
changes the output of applying it once. -/
theorem sanitize_not_idempotent :
    sanitizeHtml (sanitizeHtml
        "<scri<script></script>pt>alert(1)</scri<script></script>pt>")
      ≠ sanitizeHtml "<scri<script></script>pt>alert(1)</scri<script></script>pt>" := by
  decide

/-- C3 amended: sanitize strips script elements and inline event-handler
attributes in one left-to-right pass per pattern, and it is idempotent on
every input whose sanitized output contains no further match of the script or
handler patterns; on inputs whose output re-splices into a new match, as in
the counterexample, a second application removes strictly more. -/
theorem sanitize_idempotent_on_clean (x : String)
    (h : sanitizedClean (sanitizeHtml x).data = true) :
    sanitizeHtml (sanitizeHtml x) = sanitizeHtml x := by
  rw [show (sanitizeHtml x).data = sanitizeL x.data from rfl] at h
  rw [sanitizedClean, Bool.and_eq_true, Bool.and_eq_true] at h
  unfold sanitizeHtml
  congr 1
  show sanitizeL (sanitizeL x.data) = sanitizeL x.data
  exact sanitizeL_id (sanitizeL x.data) h.1.1 h.1.2 h.2

/-- C3 amended witness: a concrete input whose sanitized output is clean, and
on which sanitize is therefore idempotent. -/
theorem sanitize_idempotent_on_clean_witness :
    sanitizedClean (sanitizeHtml
        "<p onclick=\"evil()\">hi<script>bad</script></p>").data = true
    ∧ sanitizeHtml (sanitizeHtml "<p onclick=\"evil()\">hi<script>bad</script></p>")
        = sanitizeHtml "<p onclick=\"evil()\">hi<script>bad</script></p>" :=
  ⟨by decide, sanitize_idempotent_on_clean _ (by decide)⟩

/-! ## Theorems: word counting and read time -/

/-- Appending one character fixes the last-character test. -/
theorem lastNotWs_append_one :
    ∀ (l : List Char) (c : Char), lastNotWs (l ++ [c]) = !(jsIsSpace c) := by
  intro l
  induction l with
  | nil => intro c; rfl
  | cons a l ih =>
    intro c
    cases l with
    | nil => rfl
    | cons b l2 =>
      show lastNotWs (b :: (l2 ++ [c])) = !(jsIsSpace c)
      exact ih c

/-- The last character of a reversal is the head. -/
theorem lastNotWs_reverse (l : List Char) : lastNotWs l.reverse = headNotWs l := by
  cases l with
  | nil => rfl
  | cons c cs =>
    rw [List.reverse_cons, lastNotWs_append_one]
    rfl

/-- dropWhile leaves a list whose head fails the predicate. -/
theorem headNotWs_dropWhile (s : List Char) :
    headNotWs (s.dropWhile jsIsSpace) = true := by
  induction s with
  | nil => rfl
  | cons c cs ih =>
    rw [List.dropWhile_cons]
    by_cases h : jsIsSpace c = true
    · rw [if_pos h]
      exact ih
    · rw [if_neg h]
      simp [headNotWs, h]

/-- dropWhile removes an initial segment. -/
theorem exists_append_dropWhile (p : Char → Bool) (l : List Char) :
    ∃ x, l = x ++ l.dropWhile p := by
  induction l with
  | nil => exact ⟨[], rfl⟩
  | cons c cs ih =>
    by_cases h : p c = true
    · obtain ⟨x, hx⟩ := ih
      refine ⟨c :: x, ?_⟩
      rw [List.dropWhile_cons, if_pos h, List.cons_append, ← hx]
    · exact ⟨[], by rw [List.dropWhile_cons, if_neg h, List.nil_append]⟩

/-- A prefix of a list passing the head test passes it too. -/
theorem headNotWs_of_append (x y : List Char) (h : headNotWs (x ++ y) = true) :
    headNotWs x = true := by
  cases x with
  | nil => rfl
  | cons c cs => exact h

/-- Trimming leaves no trailing whitespace. -/
theorem lastNotWs_jsTrim (s : List Char) : lastNotWs (jsTrim s) = true := by
  unfold jsTrim
  rw [lastNotWs_reverse]
  exact headNotWs_dropWhile _

/-- Trimming leaves no leading whitespace. -/
theorem headNotWs_jsTrim (s : List Char) : headNotWs (jsTrim s) = true := by
  have hu : headNotWs (s.dropWhile jsIsSpace) = true := headNotWs_dropWhile s
  obtain ⟨x, hx⟩ := exists_append_dropWhile jsIsSpace (s.dropWhile jsIsSpace).reverse
  have h2 : s.dropWhile jsIsSpace
      = ((s.dropWhile jsIsSpace).reverse.dropWhile jsIsSpace).reverse ++ x.reverse := by
    have h3 := congrArg List.reverse hx
    rw [List.reverse_reverse, List.reverse_append] at h3
    exact h3
  rw [h2] at hu
  exact headNotWs_of_append _ _ hu

/-- Run balance: in a list with no trailing whitespace, starting after a
whitespace character there is exactly one more non-whitespace run than
whitespace runs, and starting after a non-whitespace character the two run
counts agree. -/
theorem runStarts_balance :
    ∀ s : List Char, lastNotWs s = true →
      (runStarts (fun c => !(jsIsSpace c)) (some false) s
         = runStarts jsIsSpace (some true) s + (if s = [] then 0 else 1))
      ∧ (runStarts (fun c => !(jsIsSpace c)) (some true) s
         = runStarts jsIsSpace (some false) s) := by
  intro s
  induction s with
  | nil => intro _; exact ⟨rfl, rfl⟩
  | cons c cs ih =>
    intro hl
    have hlcs : lastNotWs cs = true := by
      cases cs with
      | nil => rfl
      | cons b bs => exact hl
    by_cases hc : jsIsSpace c = true
    · have hcs : cs ≠ [] := by
        intro he
        subst he
        rw [show lastNotWs [c] = !(jsIsSpace c) from rfl, hc] at hl
        simp at hl
      constructor
      · simp only [runStarts, hc, Bool.not_true]
        rw [(ih hlcs).1]
        simp [hcs]
      · simp only [runStarts, hc, Bool.not_true]
        rw [(ih hlcs).1]
        simp [hcs]
        omega
    · have hcb : jsIsSpace c = false := by
        cases h2 : jsIsSpace c
        · rfl
        · exact absurd h2 hc
      constructor
      · simp only [runStarts, hcb, Bool.not_false]
        rw [(ih hlcs).2]
        simp
        omega
      · simp only [runStarts, hcb, Bool.not_false]
        rw [(ih hlcs).2]
        simp

/-- In a non-empty list with no leading and no trailing whitespace, the
number of non-whitespace runs, i.e. of words, is one more than the number of
whitespace runs. -/
theorem nonWs_eq_wsSucc (s : List Char) (h0 : s ≠ []) (hh : headNotWs s = true)
    (hl : lastNotWs s = true) :
    runStarts (fun c => !(jsIsSpace c)) none s = runStarts jsIsSpace none s + 1 := by
  cases s with
  | nil => exact absurd rfl h0
  | cons c cs =>
    have hcb : jsIsSpace c = false := by
      have h1 : (!(jsIsSpace c)) = true := hh
      simpa using h1
    have hlcs : lastNotWs cs = true := by
      cases cs with
      | nil => rfl
      | cons b bs => exact hl
    simp only [runStarts, hcb, Bool.not_false]
    rw [(runStarts_balance cs hlcs).2]
    simp
    omega

/-- C8 counterexample: for empty content the plain text is empty and has no
words, so the claim's formula gives a read time of 0, but the code counts the
single empty split field as a word and returns a read time of 1. -/
theorem readTime_empty_counterexample :
    readTimeOf "" = 1 ∧ specWordCount "" = 0
    ∧ (specWordCount "" + 199) / 200 = 0
    ∧ readTimeOf "" ≠ (specWordCount "" + 199) / 200 := by decide

/-- C8 amended: readTime is the ceiling of w over 200 where w is the length
of the whitespace split of the plain text of the sanitized, image-optimized
content; whenever that plain text is non-empty, w equals its number of words
(maximal non-whitespace runs), so readTime is the ceiling of the word count
over 200; for empty plain text the split contributes one empty field and the
result is 1. -/
theorem readTime_eq_ceil_words (content : String)
    (h : htmlToPlainTextL (processedHtml content) ≠ []) :
    readTimeOf content
      = (runStarts (fun c => !(jsIsSpace c)) none
          (htmlToPlainTextL (processedHtml content)) + 199) / 200 := by
  unfold readTimeOf wordCountOf splitWsLen
  rw [nonWs_eq_wsSucc (htmlToPlainTextL (processedHtml content)) h
    (headNotWs_jsTrim _) (lastNotWs_jsTrim _)]

/-- C8 amended witness: a two-word document has read time the ceiling of two
over two hundred, computed through its word count. -/
theorem readTime_eq_ceil_words_witness :
    htmlToPlainTextL (processedHtml "<p>hello world</p>") ≠ []
    ∧ readTimeOf "<p>hello world</p>"
        = (runStarts (fun c => !(jsIsSpace c)) none
            (htmlToPlainTextL (processedHtml "<p>hello world</p>")) + 199) / 200 :=
  ⟨by decide, readTime_eq_ceil_words _ (by decide)⟩

/-! ## Theorems: orchestrator flows -/

/-- After filtering out every row with the given id, none is found. -/
theorem find?_id_filter_ne (l : List BlogRow) (id : Nat) :
    (l.filter (fun r => !(r.id == id))).find? (fun r => r.id == id) = none := by
  induction l with
  | nil => rfl
  | cons a l ih =>
    rw [List.filter_cons]
    by_cases h : a.id = id
    · simp [h, ih]
    · simp [h, ih]

/-- A hard-deleted id has no row, visible or not. -/
theorem findRow_hardDelete (m : MetaStore) (id : Nat) :
    findRow (metaHardDelete m id) id = none := by
  unfold findRow metaHardDelete
  exact find?_id_filter_ne m.rows id

/-- A hard-deleted id is gone from the visible reads too. -/
theorem metaGet_hardDelete (m : MetaStore) (id : Nat) :
    metaGet (metaHardDelete m id) id = none := by
  unfold metaGet
  rw [findRow_hardDelete]

/-- C1: if any blob upload of the Create flow fails after the metadata row
has been inserted, the orchestrator performs the compensating metadata hard
delete — afterwards no row with the new id exists, so no visible row points
to a missing blob — and re-raises the storage error to the caller. -/
theorem create_compensates_on_upload_failure (o : Oracle) (st : SysState)
    (content : String) (cover : Option (String × String))
    (hf : o.putContentFails = true ∨ (o.putCoverFails = true ∧ cover ≠ none)) :
    (createBlog o st content cover).1 = Except.error OpError.storage
    ∧ findRow (createBlog o st content cover).2.meta st.meta.nextId = none := by
  rcases hf with h | hco
  · simp [createBlog, h, metaInsert, findRow_hardDelete]
  · obtain ⟨h, hc⟩ := hco
    cases hcv : cover with
    | none => exact absurd hcv hc
    | some p =>
      cases hpc : o.putContentFails with
      | true => simp [createBlog, hpc, metaInsert, findRow_hardDelete]
      | false => simp [createBlog, hpc, h, metaInsert, findRow_hardDelete]

/-- C1 witness: a concrete create whose content upload fails is compensated
and surfaces the storage error. -/
theorem create_compensates_witness :
    (createBlog (Oracle.mk true false false false false)
        (SysState.mk (MetaStore.mk [] 1) []) "hello" none).1
      = Except.error OpError.storage
    ∧ findRow (createBlog (Oracle.mk true false false false false)
        (SysState.mk (MetaStore.mk [] 1) []) "hello" none).2.meta 1 = none :=
  create_compensates_on_upload_failure (Oracle.mk true false false false false)
    (SysState.mk (MetaStore.mk [] 1) []) "hello" none (Or.inl rfl)

/-- C2: in the Permanent Delete flow, blob deletion under the blog's key
folder runs before the row is touched: when blob deletion fails the flow
surfaces the storage error with the whole state, metadata row included,
unchanged; and after a successful permanent delete the id resolves to no
visible row, a single read returns NotFound, and no blob key under the
blog's folder remains. -/
theorem permanentDelete_blob_first (o : Oracle) (st : SysState) (id : Nat) :
    (o.deleteBlobsFails = true →
       (permanentDelete o st id).1 = Except.error OpError.storage
       ∧ (permanentDelete o st id).2 = st)
    ∧ ((permanentDelete o st id).1 = Except.ok () →
       metaGet (permanentDelete o st id).2.meta id = none
       ∧ (∀ kv ∈ (permanentDelete o st id).2.blobs,
           startsWithL (blogFolder id).data kv.1.data = false)
       ∧ ∀ o2 : Oracle, (readBlog o2 (permanentDelete o st id).2 id).1
           = Except.error OpError.notFound) := by
  constructor
  · intro h
    simp [permanentDelete, h]
  · intro hok
    cases hdb : o.deleteBlobsFails with
    | true => simp [permanentDelete, hdb] at hok
    | false =>
      cases hfr : findRow st.meta id with
      | none => simp [permanentDelete, hdb, hfr] at hok
      | some r =>
        have hst : permanentDelete o st id
            = (Except.ok (), SysState.mk (metaHardDelete st.meta id)
                (blobDeleteUnder st.blobs (blogFolder id))) := by
          simp [permanentDelete, hdb, hfr]
        rw [hst]
        refine ⟨metaGet_hardDelete st.meta id, ?_, ?_⟩
        · intro kv hkv
          have h2 : kv ∈ List.filter
              (fun x => !(startsWithL (blogFolder id).data x.1.data)) st.blobs := hkv
          have h3 := (List.mem_filter.mp h2).2
          simpa using h3
        · intro o2
          simp [readBlog, metaGet_hardDelete]

/-- C2 witness: a concrete permanent delete of a stored blog empties both the
visible metadata and the blog's blob folder. -/
theorem permanentDelete_blob_first_witness :
    metaGet (permanentDelete (Oracle.mk false false false false false)
        (SysState.mk (MetaStore.mk [BlogRow.mk 1 (some (contentKeyOf 1)) none none 0] 2)
          [(contentKeyOf 1, "body")]) 1).2.meta 1 = none :=
  ((permanentDelete_blob_first (Oracle.mk false false false false false)
      (SysState.mk (MetaStore.mk [BlogRow.mk 1 (some (contentKeyOf 1)) none none 0] 2)
        [(contentKeyOf 1, "body")]) 1).2 rfl).1

/-- C9: the response of a read is identical whether the asynchronous
view-count increment succeeds or fails — that failure is discarded, never
surfaced — while every other storage failure of the modelled flows is
re-raised to the caller: a content-fetch failure fails the content read, a
blob-upload failure fails the create, and a blob-deletion failure fails the
permanent delete. -/
theorem increment_failure_swallowed (o : Oracle) (st : SysState) (id : Nat)
    (content : String) (cover : Option (String × String)) :
    (readBlogContent { o with incrementFails := true } st id).1
      = (readBlogContent { o with incrementFails := false } st id).1
    ∧ (readBlog { o with incrementFails := true } st id).1
      = (readBlog { o with incrementFails := false } st id).1
    ∧ (o.getContentFails = true → ∀ r : BlogRow, metaGet st.meta id = some r →
        (readBlogContent o st id).1 = Except.error OpError.storage)
    ∧ (o.putContentFails = true →
        (createBlog o st content cover).1 = Except.error OpError.storage)
    ∧ (o.deleteBlobsFails = true →
        (permanentDelete o st id).1 = Except.error OpError.storage) := by
  refine ⟨?_, ?_, ?_, ?_, ?_⟩
  · unfold readBlogContent
    cases hm : metaGet st.meta id with
    | none => rfl
    | some r =>
      dsimp only
      cases hck : r.contentKey with
      | none => rfl
      | some ck =>
        dsimp only
        cases hg : o.getContentFails with
        | true => simp [hg]
        | false =>
          simp only [hg]
          cases hb : blobGet st.blobs ck with
          | none => simp
          | some bytes => simp
  · unfold readBlog
    cases hm : metaGet st.meta id with
    | none => rfl
    | some r => rfl
  · intro hg r hm
    cases hck : r.contentKey with
    | none => simp [readBlogContent, hm, hck]
    | some ck => simp [readBlogContent, hm, hck, hg]
  · intro h
    simp [createBlog, h]
  · intro h
    simp [permanentDelete, h]

/-- C9 witness: on a stored blog, a failing increment yields the same
response as a succeeding one, and a failing content fetch surfaces the
storage error. -/
theorem increment_failure_swallowed_witness :
    (readBlogContent (Oracle.mk false false false false true)
        (SysState.mk (MetaStore.mk [BlogRow.mk 1 (some (contentKeyOf 1)) none none 0] 2)
          [(contentKeyOf 1, "body")]) 1).1
      = (readBlogContent (Oracle.mk false false false false false)
        (SysState.mk (MetaStore.mk [BlogRow.mk 1 (some (contentKeyOf 1)) none none 0] 2)
          [(contentKeyOf 1, "body")]) 1).1
    ∧ (readBlogContent (Oracle.mk false false false true false)
        (SysState.mk (MetaStore.mk [BlogRow.mk 1 (some (contentKeyOf 1)) none none 0] 2)
          [(contentKeyOf 1, "body")]) 1).1 = Except.error OpError.storage := by
  constructor
  · exact (increment_failure_swallowed (Oracle.mk false false false false false)
      (SysState.mk (MetaStore.mk [BlogRow.mk 1 (some (contentKeyOf 1)) none none 0] 2)
        [(contentKeyOf 1, "body")]) 1 "x" none).1
  · exact (increment_failure_swallowed (Oracle.mk false false false true false)
      (SysState.mk (MetaStore.mk [BlogRow.mk 1 (some (contentKeyOf 1)) none none 0] 2)
        [(contentKeyOf 1, "body")]) 1 "x" none).2.2.1 rfl
      (BlogRow.mk 1 (some (contentKeyOf 1)) none none 0) rfl

end BMB
